import Mathlib

/-!
Shallow embedding of the zkEVM ECC sub-circuit (`ecc_circuit.rs`) and of the
Identity precompile gadget (`identity.rs`), together with theorems checking the
claims of the natural-language specification against the code.

Conventions used throughout:
* Field element values (BN254 base field `Fq`, scalar field `Fr`) are modelled as
  `Nat` values of their canonical representatives.
* The native proving field is an arbitrary commutative ring `F`; random-linear
  combinations (RLC) are computed in `F`.
* Gadgets of the external halo2 libraries (`add_unequal`, `sub_unequal`,
  `scalar_mult`, `multi_miller_loop`, `final_exp`) are abstracted as function
  parameters; the theorems hypothesise their faithfulness only at the call
  sites the circuit uses.
-/

/-- Little-endian base-256 digits: the `k` low bytes of `n`.  Mirrors the byte
decomposition performed by `Fq::to_bytes` in `decompose_g1` / `decompose_g2`
(ecc_circuit.rs lines 864-902). -/
def leBytesAux : Nat → Nat → List Nat
  | 0, _ => []
  | k + 1, n => n % 256 :: leBytesAux k (n / 256)

/-- The 32 little-endian bytes of a base-field element value. -/
def leBytes (n : Nat) : List Nat := leBytesAux 32 n

/-- Little-endian radix-256 value of a byte list. -/
def lval : List Nat → Nat
  | [] => 0
  | b :: bs => b + 256 * lval bs

/-- Inner product of two lists, zipping to the shorter length.  Mirrors the
halo2-base `inner_product` instruction used by `assert_crt_repr`. -/
def innerProduct (xs ys : List Nat) : Nat := (List.zipWith (· * ·) xs ys).sum

/-- The powers of 256 handed to `assert_crt_repr` (`powers_of_256[0..11]`,
ecc_circuit.rs lines 190-193 and 848-852). -/
def powersOf256 : List Nat := (List.range 11).map (fun i => 256 ^ i)

/-- The 3 CRT limbs (88 bits each) of a field element value.  Mirrors the
decomposition of the external halo2-ecc `load_private` with `num_limbs = 3`,
`limb_bits = 88` (ecc_circuit.rs lines 94-95). -/
def crtLimbs (n : Nat) : List Nat :=
  [n % 2 ^ 88, n / 2 ^ 88 % 2 ^ 88, n / 2 ^ 176 % 2 ^ 88]

/-- The BN254 base field modulus (`Fq`). -/
def qBN : Nat :=
  21888242871839275222246405745257275088696311157297823662689037894645226208583

/-- The recombination done by `assert_crt_repr` (ecc_circuit.rs lines 842-853):
partition the 32 bytes into groups of 11/11/10 and take the little-endian
radix-256 weighted sum of each group. -/
def crtFromBytes (bs : List Nat) : List Nat :=
  [ innerProduct (bs.take 11) powersOf256
  , innerProduct ((bs.drop 11).take 11) powersOf256
  , innerProduct ((bs.drop 22).take 10) powersOf256 ]

/-- halo2-base `is_zero` gate: returns the bit telling whether a field element is zero. -/
def isZeroGate {F : Type} [Zero F] [DecidableEq F] (x : F) : Bool := decide (x = 0)

/-- halo2-base `and` gate on bits. -/
def andGate (a b : Bool) : Bool := a && b

/-- halo2-ecc `select` on points: returns the first point when the bit is set,
otherwise the second. -/
def selectPoint {F : Type} (a b : F × F) (bit : Bool) : F × F := if bit then a else b

/-- The identity-sentinel test of `decompose_ec_add_op` (ecc_circuit.rs lines
481-501): both coordinates zero, two zero-tests ANDed together. -/
def pointIsZero {F : Type} [Zero F] [DecidableEq F] (p : F × F) : Bool :=
  andGate (isZeroGate p.1) (isZeroGate p.2)

/-- `sum1` of `decompose_ec_add_op` (lines 503-505): `rand + P` by the external
unequal-point addition gadget `addU`, with `rand` selected when `P` is the
identity sentinel. -/
def ecAddSum1 {F : Type} [Zero F] [DecidableEq F] (addU : F × F → F × F → F × F)
    (rand p : F × F) : F × F :=
  selectPoint rand (addU rand p) (pointIsZero p)

/-- `sum2` of `decompose_ec_add_op` (lines 507-509): `sum1 + Q`, with `sum1`
selected when `Q` is the identity sentinel. -/
def ecAddSum2 {F : Type} [Zero F] [DecidableEq F] (addU : F × F → F × F → F × F)
    (rand p q : F × F) : F × F :=
  selectPoint (ecAddSum1 addU rand p) (addU (ecAddSum1 addU rand p) q) (pointIsZero q)

/-- `sum3` of `decompose_ec_add_op` (lines 511-513): `sum2 - R` by the external
unequal-point subtraction gadget `subU`, with `sum2` selected when `R` is the
identity sentinel. -/
def ecAddSum3 {F : Type} [Zero F] [DecidableEq F] (addU subU : F × F → F × F → F × F)
    (rand p q r : F × F) : F × F :=
  selectPoint (ecAddSum2 addU rand p q) (subU (ecAddSum2 addU rand p q) r) (pointIsZero r)

/-- The assertion enforced by `decompose_ec_add_op` (line 515): `rand == sum3`. -/
def decomposeEcAddAssert {F : Type} [Zero F] [DecidableEq F] (addU subU : F × F → F × F → F × F)
    (rand p q r : F × F) : Bool :=
  decide (rand = ecAddSum3 addU subU rand p q r)

/-- A G1 affine point, coordinates as values of the BN254 base field. -/
structure G1Pt where
  x : Nat
  y : Nat
deriving DecidableEq

/-- A G2 affine point; each coordinate has two base-field coefficients. -/
structure G2Pt where
  xc0 : Nat
  xc1 : Nat
  yc0 : Nat
  yc1 : Nat
deriving DecidableEq

/-- One (G1, G2) pair of an EcPairing operation. -/
structure PairingPair where
  g1 : G1Pt
  g2 : G2Pt
deriving DecidableEq

/-- An EcAdd operation: claims `p + q == r`. -/
structure EcAddOp where
  p : G1Pt
  q : G1Pt
  r : G1Pt
deriving DecidableEq

/-- An EcMul operation: claims `s * p == r` (`s` a scalar field value). -/
structure EcMulOp where
  p : G1Pt
  s : Nat
  r : G1Pt
deriving DecidableEq

/-- An EcPairing operation: claims the product of pairings over the pairs is 1
iff `output` is true. -/
structure EcPairingOp where
  pairs : List PairingPair
  output : Bool
deriving DecidableEq

/-- Modelled from the spec: padding operations have all-zero operands
(`EcAddOp::default` of the bus-mapping crate, which is not under src/). -/
instance : Inhabited G1Pt := ⟨⟨0, 0⟩⟩

instance : Inhabited EcAddOp := ⟨⟨default, default, default⟩⟩

instance : Inhabited EcMulOp := ⟨⟨default, 0, default⟩⟩

/-- Modelled from the spec: a padding EcPairing operation has all-zero operands
and a false output (`EcPairingOp::default` is not under src/). -/
instance : Inhabited EcPairingOp := ⟨⟨[], false⟩⟩

/-- The check of `decompose_ec_mul_op` (ecc_circuit.rs lines 549-556): the
external windowed scalar-multiplication gadget `sm` is invoked on `P` with the
CRT limb representation of the scalar, the `fr_chip` limb bit-width 88, and the
fixed window size 4; the result is asserted equal to `R`. -/
def decomposeEcMulAssert (sm : G1Pt → List Nat → Nat → Nat → G1Pt) (op : EcMulOp) : Bool :=
  decide (op.r = sm op.p (crtLimbs op.s) 88 4)

/-- The success bit of `decompose_ec_pairing_op` (ecc_circuit.rs lines 677-685):
one combined multi-pairing Miller loop `ml` over all pairs at once, one final
exponentiation `fe`, then an equality test against the Fp12 multiplicative
identity. -/
def ecPairingSuccessBit {Gt : Type} [One Gt] [DecidableEq Gt]
    (ml : List PairingPair → Gt) (fe : Gt → Gt) (op : EcPairingOp) : Bool :=
  decide (fe (ml op.pairs) = 1)

/-- The assertion of `decompose_ec_pairing_op` (lines 687-695): the computed
success bit equals the claimed output, both interpreted as a field element
0 or 1. -/
def decomposeEcPairingAssert {Gt : Type} [One Gt] [DecidableEq Gt]
    (ml : List PairingPair → Gt) (fe : Gt → Gt) (op : EcPairingOp) : Bool :=
  decide ((if ecPairingSuccessBit ml fe op then (1 : Nat) else 0)
    = (if op.output then (1 : Nat) else 0))

/-- Ascending-power random linear combination: the inner product of the cells
with `challenge ^ i` (halo2-base `inner_product` against `keccak_powers`,
ecc_circuit.rs lines 182-188). -/
def rlcAsc {F : Type} [CommRing F] (ch : F) : List F → F
  | [] => 0
  | c :: cs => c + ch * rlcAsc ch cs

/-- The 32 little-endian byte witness cells of a field element value, as native
field elements (`decompose_g1` / `decompose_g2`). -/
def byteCellsF {F : Type} [CommRing F] (n : Nat) : List F :=
  (leBytes n).map (fun b => (b : F))

/-- `input_cells` of `decompose_ec_pairing_op` (ecc_circuit.rs lines 652-666):
per pair, the G1 x bytes, G1 y bytes, G2 x c1 bytes, G2 x c0 bytes, G2 y c1
bytes, G2 y c0 bytes, each 32-byte chunk consumed in reverse order. -/
def pairingInputCells {F : Type} [CommRing F] (op : EcPairingOp) : List F :=
  (op.pairs.map (fun pr =>
    (byteCellsF pr.g1.x).reverse ++ (byteCellsF pr.g1.y).reverse ++
    (byteCellsF pr.g2.xc1).reverse ++ (byteCellsF pr.g2.xc0).reverse ++
    (byteCellsF pr.g2.yc1).reverse ++ (byteCellsF pr.g2.yc0).reverse)).flatten

/-- `assign_ec_pairing` (ecc_circuit.rs lines 794-809): the input RLC is the
ascending-power RLC of the reversed `input_cells`. -/
def ecPairingInputRlc {F : Type} [CommRing F] (ch : F) (op : EcPairingOp) : F :=
  rlcAsc ch (pairingInputCells op).reverse

/-- The pairing input byte stream as the specification words it (spec section
4.5): concatenate, for each pair in input order, the G1 x bytes, G1 y bytes,
G2 x second-coefficient bytes, G2 x first-coefficient bytes, G2 y
second-coefficient bytes and G2 y first-coefficient bytes, each operand taken
in reverse (big-endian) order. -/
def pairingByteStreamSpec {F : Type} [CommRing F] (op : EcPairingOp) : List F :=
  (op.pairs.map (fun pr =>
    (byteCellsF pr.g1.x).reverse ++ (byteCellsF pr.g1.y).reverse ++
    (byteCellsF pr.g2.xc1).reverse ++ (byteCellsF pr.g2.xc0).reverse ++
    (byteCellsF pr.g2.yc1).reverse ++ (byteCellsF pr.g2.yc0).reverse)).flatten

/-- The witness data of one ECC circuit instance (`EccCircuit` struct,
ecc_circuit.rs lines 139-156). -/
structure EccCircuit where
  maxAddOps : Nat
  maxMulOps : Nat
  maxPairingOps : Nat
  addOps : List EcAddOp
  mulOps : List EcMulOp
  pairingOps : List EcPairingOp

/-- The `decompose_ec_op` macro (ecc_circuit.rs lines 218-237): keep the
operations not skipped by `skip_by_ecc_circuit` (abstracted as `skip`, defined
in the bus-mapping crate outside src/), chain an infinite repetition of the
default padding operation, and take the configured maximum. -/
def decomposeEcOps {α : Type} (skip : α → Bool) (ops : List α) (dflt : α) (n : Nat) :
    List α :=
  (ops.filter (fun op => !skip op)).take n
    ++ List.replicate (n - (ops.filter (fun op => !skip op)).length) dflt

/-- Modelled from the spec: the operation-type tag of EcAdd rows
(`PrecompileCalls::Bn128Add` of the bus-mapping crate, the precompile address 6). -/
def ecAddTag : Nat := 6

/-- Modelled from the spec: the operation-type tag of EcMul rows (address 7). -/
def ecMulTag : Nat := 7

/-- Modelled from the spec: the operation-type tag of EcPairing rows (address 8). -/
def ecPairingTag : Nat := 8

/-- One row of the exported ECC lookup table
(`{op_type, arg1..4_rlc, output1..2_rlc, input_rlc}`). -/
structure EccTableRow (F : Type) where
  opType : Nat
  arg1 : F
  arg2 : F
  arg3 : F
  arg4 : F
  output1 : F
  output2 : F
  inputRlc : F
deriving DecidableEq

/-- An EcAdd table row (`assign`, ecc_circuit.rs lines 294-344): arguments are
the RLC of the byte cells of P and Q, outputs the RLC of R, input RLC zero. -/
def ecAddRow {F : Type} [CommRing F] (ch : F) (op : EcAddOp) : EccTableRow F :=
  ⟨ecAddTag, rlcAsc ch (byteCellsF op.p.x), rlcAsc ch (byteCellsF op.p.y),
    rlcAsc ch (byteCellsF op.q.x), rlcAsc ch (byteCellsF op.q.y),
    rlcAsc ch (byteCellsF op.r.x), rlcAsc ch (byteCellsF op.r.y), 0⟩

/-- An EcMul table row (`assign`, lines 347-393): arg3 is the native scalar
value, not a byte RLC; arg4 and the input RLC are zero. -/
def ecMulRow {F : Type} [CommRing F] (ch : F) (op : EcMulOp) : EccTableRow F :=
  ⟨ecMulTag, rlcAsc ch (byteCellsF op.p.x), rlcAsc ch (byteCellsF op.p.y),
    (op.s : F), 0,
    rlcAsc ch (byteCellsF op.r.x), rlcAsc ch (byteCellsF op.r.y), 0⟩

/-- An EcPairing table row (`assign`, lines 396-434): output1 is the computed
success bit, the input RLC is the RLC of the whole input byte stream, and all
other argument and output columns are zero. -/
def ecPairingRow {F : Type} [CommRing F] {Gt : Type} [One Gt] [DecidableEq Gt]
    (ml : List PairingPair → Gt) (fe : Gt → Gt) (ch : F) (op : EcPairingOp) :
    EccTableRow F :=
  ⟨ecPairingTag, 0, 0, 0, 0,
    (if ecPairingSuccessBit ml fe op then 1 else 0), 0, ecPairingInputRlc ch op⟩

/-- The exported ECC lookup table (`assign`, ecc_circuit.rs lines 290-438):
the EcAdd block, then the EcMul block, then the EcPairing block, each padded to
its configured maximum number of rows. -/
def eccTable {F : Type} [CommRing F] {Gt : Type} [One Gt] [DecidableEq Gt]
    (ml : List PairingPair → Gt) (fe : Gt → Gt)
    (skipA : EcAddOp → Bool) (skipM : EcMulOp → Bool) (skipP : EcPairingOp → Bool)
    (ch : F) (c : EccCircuit) : List (EccTableRow F) :=
  (decomposeEcOps skipA c.addOps default c.maxAddOps).map (ecAddRow ch)
    ++ (decomposeEcOps skipM c.mulOps default c.maxMulOps).map (ecMulRow ch)
    ++ (decomposeEcOps skipP c.pairingOps default c.maxPairingOps).map
        (ecPairingRow ml fe ch)

/-- `EccCircuit::assign` (ecc_circuit.rs lines 160-441): the capacity check is
performed first and fails the whole assignment (`Error::Synthesis`) before any
witness is assigned; otherwise the table is produced. -/
def eccAssign {F : Type} [CommRing F] {Gt : Type} [One Gt] [DecidableEq Gt]
    (ml : List PairingPair → Gt) (fe : Gt → Gt)
    (skipA : EcAddOp → Bool) (skipM : EcMulOp → Bool) (skipP : EcPairingOp → Bool)
    (ch : F) (c : EccCircuit) : Except Unit (List (EccTableRow F)) :=
  if c.addOps.length > c.maxAddOps ∨ c.mulOps.length > c.maxMulOps
      ∨ c.pairingOps.length > c.maxPairingOps then
    Except.error ()
  else
    Except.ok (eccTable ml fe skipA skipM skipP ch c)

/-- `min_num_rows_block` (ecc_circuit.rs lines 955-983).  `logTotalNumRows` and
`unusableRows` abstract `LOG_TOTAL_NUM_ROWS` and `Self::unusable_rows()`, whose
definitions live outside src/. -/
def minNumRowsBlock (logTotalNumRows unusableRows maxAdd maxMul maxPairing
    nAdd nMul nPairing : Nat) : Nat × Nat :=
  let maxBlindingFactor := unusableRows - 1
  let rowNum := 2 ^ logTotalNumRows - (maxBlindingFactor + 3)
  let minRowNum := [(rowNum / maxAdd) * nAdd, (rowNum / maxMul) * nMul,
    (rowNum / maxPairing) * nPairing].foldr Nat.max 0
  (minRowNum, rowNum)

/-- Modelled from the spec: `ConstantDivisionGadget` (under the repository but
not under src/) constrains `quotient * divisor + remainder = numerator` with
`remainder < divisor`.  Combined with the `require_equal` of
`IdentityGadget::configure` (identity.rs lines 56-66) this is the full
constraint on the gas cost cell, with numerator `call_data_length + 31` and
divisor `N_BYTES_WORD = 32`. -/
def identityGadgetConstraint (base perWord callDataLength gasCost quotient
    remainder : Nat) : Prop :=
  quotient * 32 + remainder = callDataLength + 31
    ∧ remainder < 32
    ∧ gasCost = base + quotient * perWord

/-- The gas cost computed by `IdentityGadget::assign_exec_step` (identity.rs
lines 109-111): `PRECOMPILE_IDENTITY_BASE + ((len + 32 - 1) / 32) *
PRECOMPILE_IDENTITY_PER_WORD` (the named constants live outside src/ and are
kept abstract). -/
def identityAssignedGas (base perWord callDataLength : Nat) : Nat :=
  base + ((callDataLength + 32 - 1) / 32) * perWord

theorem length_leBytesAux (k n : Nat) : (leBytesAux k n).length = k := by
  induction k generalizing n with
  | zero => rfl
  | succ k ih => simp [leBytesAux, ih]

theorem take_leBytesAux (j : Nat) : ∀ k n, j ≤ k →
    (leBytesAux k n).take j = leBytesAux j n := by
  induction j with
  | zero => intro k n _; rfl
  | succ j ih =>
    intro k n hk
    cases k with
    | zero => omega
    | succ k =>
      simp only [leBytesAux, List.take_succ_cons]
      rw [ih k (n / 256) (by omega)]

theorem drop_leBytesAux (j : Nat) : ∀ k n,
    (leBytesAux k n).drop j = leBytesAux (k - j) (n / 256 ^ j) := by
  induction j with
  | zero => intro k n; simp
  | succ j ih =>
    intro k n
    cases k with
    | zero => simp [leBytesAux]
    | succ k =>
      simp only [leBytesAux, List.drop_succ_cons]
      rw [ih k (n / 256)]
      congr 1
      · omega
      · rw [Nat.div_div_eq_div_mul, pow_succ, Nat.mul_comm]

theorem lval_leBytesAux (k : Nat) : ∀ n, lval (leBytesAux k n) = n % 256 ^ k := by
  induction k with
  | zero => intro n; simp [leBytesAux, lval, Nat.mod_one]
  | succ k ih =>
    intro n
    have hmul : n % (256 * 256 ^ k) = n % 256 + 256 * (n / 256 % 256 ^ k) := Nat.mod_mul
    simp only [leBytesAux, lval, ih]
    rw [pow_succ, Nat.mul_comm (256 ^ k) 256, hmul]

theorem innerProduct_cons (x y : Nat) (xs ys : List Nat) :
    innerProduct (x :: xs) (y :: ys) = x * y + innerProduct xs ys := by
  simp [innerProduct]

theorem innerProduct_map_mul (c : Nat) : ∀ (xs ys : List Nat),
    innerProduct xs (ys.map (fun y => c * y)) = c * innerProduct xs ys := by
  intro xs
  induction xs with
  | nil => intro ys; simp [innerProduct]
  | cons x xs ih =>
    intro ys
    cases ys with
    | nil => simp [innerProduct]
    | cons y ys =>
      rw [List.map_cons, innerProduct_cons, innerProduct_cons, ih ys]
      ring

theorem innerProduct_range_pow : ∀ (bs : List Nat) (m : Nat), bs.length ≤ m →
    innerProduct bs ((List.range m).map (fun i => 256 ^ i)) = lval bs := by
  intro bs
  induction bs with
  | nil => intro m _; simp [innerProduct, lval]
  | cons b bs ih =>
    intro m hm
    cases m with
    | zero => simp at hm
    | succ m =>
      rw [List.range_succ_eq_map]
      have hmap : (List.map Nat.succ (List.range m)).map (fun i => 256 ^ i)
          = ((List.range m).map (fun i => 256 ^ i)).map (fun y => 256 * y) := by
        simp only [List.map_map]
        apply List.map_congr_left
        intro i _
        simp [Function.comp, pow_succ, Nat.mul_comm]
      rw [List.map_cons, pow_zero, innerProduct_cons, hmap, innerProduct_map_mul,
        ih m (by simpa using hm)]
      simp [lval]

/-- C2 helper: each weighted group sum recovers a div-mod slice of the value. -/
theorem innerProduct_leBytesAux_pow (k : Nat) (n : Nat) (hk : k ≤ 11) :
    innerProduct (leBytesAux k n) powersOf256 = n % 256 ^ k := by
  rw [powersOf256, innerProduct_range_pow _ 11 (by rw [length_leBytesAux]; exact hk),
    lval_leBytesAux]

/-- C2: for every operand assigned as a CRT big integer together with its 32
little-endian byte witnesses, the `assert_crt_repr` recombination (groups of
11/11/10 bytes, little-endian radix-256 weighted sums) reproduces exactly the
3-limb CRT representation of the value: the byte decomposition of any
base-field element recombines to its limb representation. -/
theorem crt_byte_round_trip (n : Nat) (h : n < qBN) :
    crtFromBytes (leBytes n) = crtLimbs n := by
  have h254 : n < 2 ^ 254 := lt_of_lt_of_le h (by decide)
  have e1 : (leBytes n).take 11 = leBytesAux 11 n :=
    take_leBytesAux 11 32 n (by omega)
  have e2 : ((leBytes n).drop 11).take 11 = leBytesAux 11 (n / 256 ^ 11) := by
    rw [leBytes, drop_leBytesAux]
    exact take_leBytesAux 11 21 _ (by omega)
  have e3 : ((leBytes n).drop 22).take 10 = leBytesAux 10 (n / 256 ^ 22) := by
    rw [leBytes, drop_leBytesAux]
    exact take_leBytesAux 10 10 _ (by omega)
  have p11 : (256 : Nat) ^ 11 = 2 ^ 88 := by norm_num
  have p22 : (256 : Nat) ^ 22 = 2 ^ 176 := by norm_num
  have p10 : (256 : Nat) ^ 10 = 2 ^ 80 := by norm_num
  have hsmall : n / 2 ^ 176 < 2 ^ 78 := by
    rw [Nat.div_lt_iff_lt_mul (by positivity)]
    calc n < 2 ^ 254 := h254
    _ = 2 ^ 78 * 2 ^ 176 := by norm_num
  have hm80 : n / 2 ^ 176 % 2 ^ 80 = n / 2 ^ 176 :=
    Nat.mod_eq_of_lt (lt_trans hsmall (by norm_num))
  have hm88 : n / 2 ^ 176 % 2 ^ 88 = n / 2 ^ 176 :=
    Nat.mod_eq_of_lt (lt_trans hsmall (by norm_num))
  rw [crtFromBytes, e1, e2, e3,
    innerProduct_leBytesAux_pow 11 n (by omega),
    innerProduct_leBytesAux_pow 11 _ (by omega),
    innerProduct_leBytesAux_pow 10 _ (by omega),
    crtLimbs, p11, p22, p10, hm80, hm88]

/-- Witness for C2 at the concrete value 123456789. -/
theorem crt_byte_round_trip_witness :
    123456789 < qBN ∧ crtFromBytes (leBytes 123456789) = crtLimbs 123456789 :=
  ⟨by decide, crt_byte_round_trip 123456789 (by decide)⟩

/-- C1: for every EcAdd operation the verifier enforces `P + Q == R` with
`(0, 0)` as the identity sentinel, via the random-point-mask construction
`sum1 = rand + P` (selecting `rand` when both coordinates of `P` are zero),
`sum2 = sum1 + Q` (selecting `sum1` when `Q` is the sentinel),
`sum3 = sum2 - R` (selecting `sum2` when `R` is the sentinel), and the final
assertion `rand == sum3`.  The external unequal-point gadgets `addU` and `subU`
and the group interpretation `toGroup` of point registers are abstract; the
hypotheses state their faithfulness exactly at the calls the circuit makes. -/
theorem ec_add_assert_sound {F : Type} [Zero F] [DecidableEq F]
    {G : Type} [AddCommGroup G]
    (addU subU : F × F → F × F → F × F) (toGroup : F × F → G)
    (rand p q r : F × F)
    (hsent : toGroup (0, 0) = 0)
    (hinj : Function.Injective toGroup)
    (h1 : pointIsZero p = false → toGroup (addU rand p) = toGroup rand + toGroup p)
    (h2 : pointIsZero q = false →
      toGroup (addU (ecAddSum1 addU rand p) q) = toGroup (ecAddSum1 addU rand p) + toGroup q)
    (h3 : pointIsZero r = false →
      toGroup (subU (ecAddSum2 addU rand p q) r) = toGroup (ecAddSum2 addU rand p q) - toGroup r) :
    decomposeEcAddAssert addU subU rand p q r = true
      ↔ toGroup p + toGroup q = toGroup r := by
  have hzero : ∀ t : F × F, pointIsZero t = true → toGroup t = 0 := by
    intro t ht
    have hx : t.1 = 0 ∧ t.2 = 0 := by
      simpa [pointIsZero, andGate, isZeroGate] using ht
    have : t = ((0 : F), (0 : F)) := Prod.ext hx.1 hx.2
    rw [this, hsent]
  have e1 : toGroup (ecAddSum1 addU rand p) = toGroup rand + toGroup p := by
    cases hb : pointIsZero p with
    | true =>
      rw [ecAddSum1, hb, selectPoint, if_pos rfl, hzero p hb, add_zero]
    | false =>
      rw [ecAddSum1, hb, selectPoint, if_neg (by simp), h1 hb]
  have e2 : toGroup (ecAddSum2 addU rand p q)
      = toGroup rand + toGroup p + toGroup q := by
    cases hb : pointIsZero q with
    | true =>
      rw [ecAddSum2, hb, selectPoint, if_pos rfl, hzero q hb, e1, add_zero]
    | false =>
      rw [ecAddSum2, hb, selectPoint, if_neg (by simp), h2 hb, e1]
  have e3 : toGroup (ecAddSum3 addU subU rand p q r)
      = toGroup rand + toGroup p + toGroup q - toGroup r := by
    cases hb : pointIsZero r with
    | true =>
      rw [ecAddSum3, hb, selectPoint, if_pos rfl, hzero r hb, e2, sub_zero]
    | false =>
      rw [ecAddSum3, hb, selectPoint, if_neg (by simp), h3 hb, e2]
  have regroup : toGroup rand + toGroup p + toGroup q - toGroup r
      = toGroup rand + (toGroup p + toGroup q - toGroup r) := by abel
  rw [decomposeEcAddAssert, decide_eq_true_iff]
  constructor
  · intro hEq
    have h := congrArg toGroup hEq
    rw [e3, regroup] at h
    have hx : toGroup rand + (toGroup p + toGroup q - toGroup r)
        = toGroup rand + 0 := by rw [add_zero]; exact h.symm
    exact sub_eq_zero.mp (add_left_cancel hx)
  · intro hpq
    apply hinj
    rw [e3, regroup, hpq, sub_self, add_zero]

/-- Witness for C1: the abstract model instantiated with componentwise addition
over `ZMod 3 × ZMod 3` and the identity interpretation, at a concrete EcAdd
operation with `Q` the identity sentinel. -/
theorem ec_add_assert_sound_witness :
    decomposeEcAddAssert (F := ZMod 3)
        (fun a b => a + b) (fun a b => a - b) (1, 1) (1, 0) (0, 0) (1, 0) = true
      ↔ (((1 : ZMod 3), (0 : ZMod 3)) + ((0 : ZMod 3), (0 : ZMod 3)))
          = ((1 : ZMod 3), (0 : ZMod 3)) :=
  ec_add_assert_sound (fun a b => a + b) (fun a b => a - b) id
    (1, 1) (1, 0) (0, 0) (1, 0) (by decide) (fun _ _ h => h)
    (fun _ => rfl) (fun _ => rfl) (fun _ => rfl)

/-- C3: for every EcPairing operation, the verifier computes one combined
multi-pairing Miller loop over all pairs followed by a single final
exponentiation, compares the resulting target-group element against the Fp12
multiplicative identity to obtain the success bit, and asserts that this bit
equals the claimed output as a 0/1 value: the assertion holds exactly when the
pairing product is 1 iff the claimed output is true. -/
theorem ec_pairing_assert_sound {Gt : Type} [One Gt] [DecidableEq Gt]
    (ml : List PairingPair → Gt) (fe : Gt → Gt) (op : EcPairingOp) :
    decomposeEcPairingAssert ml fe op = true
      ↔ (fe (ml op.pairs) = 1 ↔ op.output = true) := by
  by_cases hgt : fe (ml op.pairs) = 1 <;> cases hout : op.output <;>
    simp [decomposeEcPairingAssert, ecPairingSuccessBit, hgt, hout]

/-- C4: for every EcPairing operation, the input RLC is the ascending-power
inner product of the reversal of the byte stream built by concatenating, per
pair in input order, the G1 x bytes, G1 y bytes, G2 x second-coefficient bytes,
G2 x first-coefficient bytes, G2 y second-coefficient bytes and G2 y
first-coefficient bytes, each operand taken in reverse (big-endian) order: the
phase-1 concatenation is reversed once more before the phase-2 fold. -/
theorem ec_pairing_input_rlc_spec {F : Type} [CommRing F] (ch : F) (op : EcPairingOp) :
    ecPairingInputRlc ch op = rlcAsc ch (pairingByteStreamSpec (F := F) op).reverse :=
  rfl

/-- C5: for every EcMul operation, the verifier invokes the windowed
scalar-multiplication gadget on the decomposed point `P` with the CRT limb
representation of the scalar, limb bit-width 88 and the fixed window size 4,
and asserts the result equals `R`; no identity-sentinel special-casing of `P`,
`s` or `R` is applied — the assertion succeeds exactly when the gadget output
equals `R`. -/
theorem ec_mul_assert_spec (sm : G1Pt → List Nat → Nat → Nat → G1Pt) (op : EcMulOp) :
    decomposeEcMulAssert sm op = true ↔ sm op.p (crtLimbs op.s) 88 4 = op.r := by
  rw [decomposeEcMulAssert, decide_eq_true_iff, eq_comm]

theorem length_decomposeEcOps {α : Type} (skip : α → Bool) (ops : List α) (dflt : α)
    (n : Nat) : (decomposeEcOps skip ops dflt n).length = n := by
  simp only [decomposeEcOps, List.length_append, List.length_take, List.length_replicate]
  omega

/-- C6: circuit assignment fails (producing no table) if and only if at least
one actual operation count exceeds its configured maximum; otherwise it
produces the table.  The capacity check is the first step of `assign`, before
any witness assignment. -/
theorem ecc_assign_capacity {F : Type} [CommRing F] {Gt : Type} [One Gt] [DecidableEq Gt]
    (ml : List PairingPair → Gt) (fe : Gt → Gt)
    (skipA : EcAddOp → Bool) (skipM : EcMulOp → Bool) (skipP : EcPairingOp → Bool)
    (ch : F) (c : EccCircuit) :
    (eccAssign ml fe skipA skipM skipP ch c = Except.error ()
      ↔ (c.addOps.length > c.maxAddOps ∨ c.mulOps.length > c.maxMulOps
          ∨ c.pairingOps.length > c.maxPairingOps))
    ∧ (eccAssign ml fe skipA skipM skipP ch c
        = Except.ok (eccTable ml fe skipA skipM skipP ch c)
      ↔ ¬(c.addOps.length > c.maxAddOps ∨ c.mulOps.length > c.maxMulOps
          ∨ c.pairingOps.length > c.maxPairingOps)) := by
  by_cases h : c.addOps.length > c.maxAddOps ∨ c.mulOps.length > c.maxMulOps
      ∨ c.pairingOps.length > c.maxPairingOps <;>
    simp [eccAssign, h]

/-- C7: the exported lookup table has the fixed block layout — EcAdd rows at
index `i` for `i < max_add`, EcMul rows at `max_add + i`, EcPairing rows at
`max_add + max_mul + i`; every row of a block (padding included) carries the
block tag; EcAdd rows hold the byte RLCs of P, Q as arguments and of R as
outputs with zero input RLC; EcMul rows hold the byte RLCs of P, the native
scalar value as arg3, zero arg4, the byte RLCs of R and zero input RLC;
EcPairing rows hold the success bit as output1, the input RLC, and zeros
elsewhere. -/
theorem ecc_table_layout {F : Type} [CommRing F] {Gt : Type} [One Gt] [DecidableEq Gt]
    (ml : List PairingPair → Gt) (fe : Gt → Gt)
    (skipA : EcAddOp → Bool) (skipM : EcMulOp → Bool) (skipP : EcPairingOp → Bool)
    (ch : F) (c : EccCircuit) (i : Nat) :
    (eccTable ml fe skipA skipM skipP ch c).length
        = c.maxAddOps + c.maxMulOps + c.maxPairingOps
    ∧ (i < c.maxAddOps → ∃ op,
        (decomposeEcOps skipA c.addOps default c.maxAddOps)[i]? = some op
        ∧ (eccTable ml fe skipA skipM skipP ch c)[i]? = some
            ⟨ecAddTag, rlcAsc ch (byteCellsF op.p.x), rlcAsc ch (byteCellsF op.p.y),
              rlcAsc ch (byteCellsF op.q.x), rlcAsc ch (byteCellsF op.q.y),
              rlcAsc ch (byteCellsF op.r.x), rlcAsc ch (byteCellsF op.r.y), 0⟩)
    ∧ (i < c.maxMulOps → ∃ op,
        (decomposeEcOps skipM c.mulOps default c.maxMulOps)[i]? = some op
        ∧ (eccTable ml fe skipA skipM skipP ch c)[c.maxAddOps + i]? = some
            ⟨ecMulTag, rlcAsc ch (byteCellsF op.p.x), rlcAsc ch (byteCellsF op.p.y),
              (op.s : F), 0,
              rlcAsc ch (byteCellsF op.r.x), rlcAsc ch (byteCellsF op.r.y), 0⟩)
    ∧ (i < c.maxPairingOps → ∃ op,
        (decomposeEcOps skipP c.pairingOps default c.maxPairingOps)[i]? = some op
        ∧ (eccTable ml fe skipA skipM skipP ch c)[c.maxAddOps + c.maxMulOps + i]? = some
            ⟨ecPairingTag, 0, 0, 0, 0,
              (if ecPairingSuccessBit ml fe op then 1 else 0), 0,
              ecPairingInputRlc ch op⟩) := by
  have hA : (decomposeEcOps skipA c.addOps default c.maxAddOps).length = c.maxAddOps :=
    length_decomposeEcOps _ _ _ _
  have hM : (decomposeEcOps skipM c.mulOps default c.maxMulOps).length = c.maxMulOps :=
    length_decomposeEcOps _ _ _ _
  have hP : (decomposeEcOps skipP c.pairingOps default c.maxPairingOps).length
      = c.maxPairingOps := length_decomposeEcOps _ _ _ _
  refine ⟨?_, ?_, ?_, ?_⟩
  · simp [eccTable, hA, hM, hP]; omega
  · intro hi
    have hi' : i < (decomposeEcOps skipA c.addOps default c.maxAddOps).length := by
      rw [hA]; exact hi
    refine ⟨(decomposeEcOps skipA c.addOps default c.maxAddOps)[i],
      List.getElem?_eq_getElem hi', ?_⟩
    rw [eccTable, List.getElem?_append_left (by simp [hA, hM]; omega),
      List.getElem?_append_left (by simpa using hi'),
      List.getElem?_map, List.getElem?_eq_getElem hi']
    rfl
  · intro hi
    have hi' : i < (decomposeEcOps skipM c.mulOps default c.maxMulOps).length := by
      rw [hM]; exact hi
    refine ⟨(decomposeEcOps skipM c.mulOps default c.maxMulOps)[i],
      List.getElem?_eq_getElem hi', ?_⟩
    rw [eccTable, List.getElem?_append_left (by simp [hA, hM]; omega),
      List.getElem?_append_right (by simp [hA])]
    have hidx : c.maxAddOps + i
        - ((decomposeEcOps skipA c.addOps default c.maxAddOps).map (ecAddRow ch)).length
        = i := by simp [hA]
    rw [hidx, List.getElem?_map, List.getElem?_eq_getElem hi']
    rfl
  · intro hi
    have hi' : i < (decomposeEcOps skipP c.pairingOps default c.maxPairingOps).length := by
      rw [hP]; exact hi
    refine ⟨(decomposeEcOps skipP c.pairingOps default c.maxPairingOps)[i],
      List.getElem?_eq_getElem hi', ?_⟩
    rw [eccTable, List.getElem?_append_right (by simp [hA, hM])]
    have hidx : c.maxAddOps + c.maxMulOps + i
        - ((decomposeEcOps skipA c.addOps default c.maxAddOps).map (ecAddRow ch)
            ++ (decomposeEcOps skipM c.mulOps default c.maxMulOps).map (ecMulRow ch)).length
        = i := by simp [hA, hM]
    rw [hidx, List.getElem?_map, List.getElem?_eq_getElem hi']
    rfl

/-- C8: for positive configured maxima, `min_num_rows_block` returns the pair
of the advisory fill metric (the maximum over the three operation kinds of
`floor(row_num / max_kind) * actual_count_kind`) and the row budget
`2 ^ LOG_TOTAL_NUM_ROWS - (unusable_rows() - 1 + 3)`. -/
theorem min_num_rows_block_spec (lg unus maxA maxM maxP nA nM nP : Nat)
    (_hA : 0 < maxA) (_hM : 0 < maxM) (_hP : 0 < maxP) :
    minNumRowsBlock lg unus maxA maxM maxP nA nM nP
      = (Nat.max ((2 ^ lg - (unus - 1 + 3)) / maxA * nA)
          (Nat.max ((2 ^ lg - (unus - 1 + 3)) / maxM * nM)
            ((2 ^ lg - (unus - 1 + 3)) / maxP * nP)),
        2 ^ lg - (unus - 1 + 3)) := by
  simp [minNumRowsBlock, Nat.max_zero]

/-- Witness for C8 at a concrete configuration. -/
theorem min_num_rows_block_spec_witness :
    0 < 5 ∧ 0 < 5 ∧ 0 < 2 ∧ minNumRowsBlock 19 9 5 5 2 1 2 3
      = (Nat.max ((2 ^ 19 - (9 - 1 + 3)) / 5 * 1)
          (Nat.max ((2 ^ 19 - (9 - 1 + 3)) / 5 * 2) ((2 ^ 19 - (9 - 1 + 3)) / 2 * 3)),
        2 ^ 19 - (9 - 1 + 3)) :=
  ⟨by decide, by decide, by decide,
    min_num_rows_block_spec 19 9 5 5 2 1 2 3 (by decide) (by decide) (by decide)⟩

/-- C9: when the supplied operation count is within the maximum, the
decomposition stage produces exactly the maximum number of entries: the real
operations not skipped by the skip predicate first, in input order, followed
by default padding operations; skipped operations occupy no slot. -/
theorem decompose_ec_ops_spec {α : Type} (skip : α → Bool) (ops : List α) (dflt : α)
    (n : Nat) (h : ops.length ≤ n) :
    decomposeEcOps skip ops dflt n
      = ops.filter (fun op => !skip op)
        ++ List.replicate (n - (ops.filter (fun op => !skip op)).length) dflt
    ∧ (decomposeEcOps skip ops dflt n).length = n := by
  have hf : (ops.filter (fun op => !skip op)).length ≤ n :=
    le_trans (List.length_filter_le _ _) h
  exact ⟨by rw [decomposeEcOps, List.take_of_length_le hf],
    length_decomposeEcOps _ _ _ _⟩

/-- Witness for C9: a list with one skipped element, padded to five slots. -/
theorem decompose_ec_ops_spec_witness :
    ([1, 2, 3] : List Nat).length ≤ 5
    ∧ (decomposeEcOps (fun o => decide (o % 2 = 0)) [1, 2, 3] 0 5
        = (([1, 2, 3] : List Nat).filter (fun op => !decide (op % 2 = 0)))
          ++ List.replicate
              (5 - (([1, 2, 3] : List Nat).filter (fun op => !decide (op % 2 = 0))).length) 0
      ∧ (decomposeEcOps (fun o => decide (o % 2 = 0)) [1, 2, 3] 0 5).length = 5) :=
  ⟨by decide, decompose_ec_ops_spec (fun o => decide (o % 2 = 0)) [1, 2, 3] 0 5 (by decide)⟩

/-- C10: the Identity precompile gadget assigns
`gas = BASE + ceil(len / 32) * PER_WORD` with the ceiling computed as the
quotient of `(len + 31) / 32`, and its constraint system (the constant-division
gadget plus the gas equality) forces any satisfying gas value to equal exactly
that amount. -/
theorem identity_gas_cost (base perWord len : Nat) :
    identityAssignedGas base perWord len = base + ((len + 31) / 32) * perWord
    ∧ identityGadgetConstraint base perWord len (identityAssignedGas base perWord len)
        ((len + 31) / 32) ((len + 31) % 32)
    ∧ ∀ gas q rem, identityGadgetConstraint base perWord len gas q rem →
        gas = identityAssignedGas base perWord len := by
  have hform : identityAssignedGas base perWord len
      = base + ((len + 31) / 32) * perWord := by
    rw [identityAssignedGas]
    congr 3
  refine ⟨hform, ⟨by omega, by omega, by rw [hform]⟩, ?_⟩
  intro gas q rem hc
  obtain ⟨h1, h2, h3⟩ := hc
  have hq : q = (len + 31) / 32 := by omega
  rw [h3, hq, hform]

/-- Witness for C10 at `len = 37` (base 15, per-word 3): the assigned gas is 21
and any satisfying assignment is forced to 21. -/
theorem identity_gas_cost_witness :
    identityGadgetConstraint 15 3 37 (identityAssignedGas 15 3 37) ((37 + 31) / 32)
      ((37 + 31) % 32)
    ∧ identityGadgetConstraint 15 3 37 21 2 4
    ∧ 21 = identityAssignedGas 15 3 37 :=
  ⟨(identity_gas_cost 15 3 37).2.1, ⟨by decide, by decide, by decide⟩,
    (identity_gas_cost 15 3 37).2.2 21 2 4 ⟨by decide, by decide, by decide⟩⟩

/-- Witness for C7: a circuit with one slot per operation kind, one real EcAdd
operation, no EcMul operation (so its row is padding), and one EcPairing
operation, over `ZMod 97` with challenge 2. -/
theorem ecc_table_layout_witness :
    (∃ op, (decomposeEcOps (fun _ : EcAddOp => false) [⟨⟨1, 2⟩, ⟨3, 4⟩, ⟨5, 6⟩⟩]
        default 1)[0]? = some op
      ∧ (eccTable (fun _ : List PairingPair => (1 : ZMod 5)) (fun g => g)
          (fun _ => false) (fun _ => false) (fun _ => false) (2 : ZMod 97)
          ⟨1, 1, 1, [⟨⟨1, 2⟩, ⟨3, 4⟩, ⟨5, 6⟩⟩], [], [⟨[⟨⟨1, 2⟩, ⟨1, 2, 3, 4⟩⟩], true⟩]⟩)[0]?
        = some ⟨ecAddTag, rlcAsc 2 (byteCellsF op.p.x), rlcAsc 2 (byteCellsF op.p.y),
            rlcAsc 2 (byteCellsF op.q.x), rlcAsc 2 (byteCellsF op.q.y),
            rlcAsc 2 (byteCellsF op.r.x), rlcAsc 2 (byteCellsF op.r.y), 0⟩)
    ∧ (∃ op, (decomposeEcOps (fun _ : EcMulOp => false) [] default 1)[0]? = some op
      ∧ (eccTable (fun _ : List PairingPair => (1 : ZMod 5)) (fun g => g)
          (fun _ => false) (fun _ => false) (fun _ => false) (2 : ZMod 97)
          ⟨1, 1, 1, [⟨⟨1, 2⟩, ⟨3, 4⟩, ⟨5, 6⟩⟩], [], [⟨[⟨⟨1, 2⟩, ⟨1, 2, 3, 4⟩⟩], true⟩]⟩)[1 + 0]?
        = some ⟨ecMulTag, rlcAsc 2 (byteCellsF op.p.x), rlcAsc 2 (byteCellsF op.p.y),
            (op.s : ZMod 97), 0,
            rlcAsc 2 (byteCellsF op.r.x), rlcAsc 2 (byteCellsF op.r.y), 0⟩)
    ∧ (∃ op, (decomposeEcOps (fun _ : EcPairingOp => false)
        [⟨[⟨⟨1, 2⟩, ⟨1, 2, 3, 4⟩⟩], true⟩] default 1)[0]? = some op
      ∧ (eccTable (fun _ : List PairingPair => (1 : ZMod 5)) (fun g => g)
          (fun _ => false) (fun _ => false) (fun _ => false) (2 : ZMod 97)
          ⟨1, 1, 1, [⟨⟨1, 2⟩, ⟨3, 4⟩, ⟨5, 6⟩⟩], [], [⟨[⟨⟨1, 2⟩, ⟨1, 2, 3, 4⟩⟩], true⟩]⟩)[1 + 1 + 0]?
        = some ⟨ecPairingTag, 0, 0, 0, 0,
            (if ecPairingSuccessBit (fun _ : List PairingPair => (1 : ZMod 5))
                (fun g => g) op then 1 else 0), 0, ecPairingInputRlc 2 op⟩) :=
  ⟨(ecc_table_layout (fun _ : List PairingPair => (1 : ZMod 5)) (fun g => g)
      (fun _ => false) (fun _ => false) (fun _ => false) (2 : ZMod 97)
      ⟨1, 1, 1, [⟨⟨1, 2⟩, ⟨3, 4⟩, ⟨5, 6⟩⟩], [], [⟨[⟨⟨1, 2⟩, ⟨1, 2, 3, 4⟩⟩], true⟩]⟩ 0).2.1
      (by decide),
    (ecc_table_layout (fun _ : List PairingPair => (1 : ZMod 5)) (fun g => g)
      (fun _ => false) (fun _ => false) (fun _ => false) (2 : ZMod 97)
      ⟨1, 1, 1, [⟨⟨1, 2⟩, ⟨3, 4⟩, ⟨5, 6⟩⟩], [], [⟨[⟨⟨1, 2⟩, ⟨1, 2, 3, 4⟩⟩], true⟩]⟩ 0).2.2.1
      (by decide),
    (ecc_table_layout (fun _ : List PairingPair => (1 : ZMod 5)) (fun g => g)
      (fun _ => false) (fun _ => false) (fun _ => false) (2 : ZMod 97)
      ⟨1, 1, 1, [⟨⟨1, 2⟩, ⟨3, 4⟩, ⟨5, 6⟩⟩], [], [⟨[⟨⟨1, 2⟩, ⟨1, 2, 3, 4⟩⟩], true⟩]⟩ 0).2.2.2
      (by decide)⟩
